import Mathlib

/-!
masscrack-ng (gocrack.go): shallow embedding and verified properties.

Go strings are immutable byte sequences; they are modelled as lists of byte
values (`GoString`).  Calls into the operating system (directory listing,
`os.Stat`, `filepath.Join`, the `aircrack-ng` process, opening a wordlist) are
fields of an explicit environment `Env`.  `log.Fatal`/`log.Fatalf` and runtime
panics are modelled by `none`.  The verbose progress output (`fmt.Printf` under
`args.verbose`) does not influence any value computed by the program and is
left out.
-/

namespace GoCrack

/-- A Go string: a sequence of bytes. -/
abbrev GoString := List Nat

/-- Bytes of an ASCII string literal of the source. -/
def ascii (s : String) : GoString := s.toList.map Char.toNat

/-! ## The `strings` functions used by the source -/

/-- Scan for the first offset at which `sub` starts (`strings.Index`), counting from `i`. -/
def indexFrom (sub : GoString) : GoString → Nat → Int
  | [], i => if sub.isPrefixOf [] then (i : Int) else -1
  | c :: t, i => if sub.isPrefixOf (c :: t) then (i : Int) else indexFrom sub t (i + 1)

/-- Go `strings.Index(s, sub)`: byte offset of the first occurrence of `sub`, or -1. -/
def Index (s sub : GoString) : Int := indexFrom sub s 0

/-- Scan for the last offset at which `sub` starts, `acc` being the best so far. -/
def lastIndexFrom (sub : GoString) : GoString → Nat → Int → Int
  | [], i, acc => if sub.isPrefixOf [] then (i : Int) else acc
  | c :: t, i, acc =>
    lastIndexFrom sub t (i + 1) (if sub.isPrefixOf (c :: t) then (i : Int) else acc)

/-- Go `strings.LastIndex(s, sub)`: byte offset of the last occurrence of `sub`, or -1. -/
def LastIndex (s sub : GoString) : Int := lastIndexFrom sub s 0 (-1)

/-- Go `strings.Contains(s, sub)`, which is `Index(s, sub) >= 0`. -/
def Contains (s sub : GoString) : Bool := decide (0 ≤ Index s sub)

/-- Go `strings.Replace(s, old, new, 1)`: the first occurrence of `old` is replaced. -/
def Replace1 (old new : GoString) : GoString → GoString
  | [] => if old.isPrefixOf [] then new else []
  | c :: t =>
    if old.isPrefixOf (c :: t) then new ++ (c :: t).drop old.length
    else c :: Replace1 old new t

/-- Worker of `Split`: `skip` bytes of a separator just matched remain to be passed over,
`cur` is the current segment in reverse. -/
def splitAux (sep : GoString) : GoString → Nat → GoString → List GoString
  | [], _, cur => [cur.reverse]
  | _ :: t, skip + 1, cur => splitAux sep t skip cur
  | c :: t, 0, cur =>
    if sep.isPrefixOf (c :: t) then cur.reverse :: splitAux sep t (sep.length - 1) []
    else splitAux sep t 0 (c :: cur)

/-- Go `strings.Split(s, sep)` for a non-empty separator. -/
def Split (s sep : GoString) : List GoString := splitAux sep s 0 []

/-- Go slice expression `s[b:e]`; `none` is the out-of-range runtime panic. -/
def slice (s : GoString) (b e : Int) : Option GoString :=
  if 0 ≤ b ∧ b ≤ e ∧ e ≤ (s.length : Int) then some ((s.drop b.toNat).take (e - b).toNat)
  else none

/-! ## `getKeyFromOutput` -/

/-- The source function `getKeyFromOutput` (lines 200-207). -/
def getKeyFromOutput (output : GoString) : Option GoString :=
  let begin := Index output (ascii "[") + 2
  let «end» := LastIndex output (ascii "]") - 1
  if «end» ≤ begin then some (ascii "<unknown>")
  else slice output begin «end»

/-! ## UTF-8 runes: `for i, char := range s` and `bytes.Buffer.WriteRune` -/

/-- Continuation byte test (`0x80 <= b <= 0xBF`). -/
def isCont (b : Nat) : Bool := 128 ≤ b && b ≤ 191

/-- One step of a Go `range` over a string: the rune at the head of the bytes and its width.
An invalid or truncated encoding yields `U+FFFD` with width 1. -/
def decodeRune : GoString → Nat × Nat
  | [] => (65533, 0)
  | b0 :: rest =>
    if b0 < 128 then (b0, 1)
    else if 194 ≤ b0 && b0 ≤ 223 then
      match rest with
      | b1 :: _ => if isCont b1 then ((b0 % 32) * 64 + b1 % 64, 2) else (65533, 1)
      | _ => (65533, 1)
    else if 224 ≤ b0 && b0 ≤ 239 then
      match rest with
      | b1 :: b2 :: _ =>
        let lo := if b0 = 224 then 160 else 128
        let hi := if b0 = 237 then 159 else 191
        if lo ≤ b1 && b1 ≤ hi && isCont b2 then
          ((b0 % 16) * 4096 + (b1 % 64) * 64 + b2 % 64, 3)
        else (65533, 1)
      | _ => (65533, 1)
    else if 240 ≤ b0 && b0 ≤ 244 then
      match rest with
      | b1 :: b2 :: b3 :: _ =>
        let lo := if b0 = 240 then 144 else 128
        let hi := if b0 = 244 then 143 else 191
        if lo ≤ b1 && b1 ≤ hi && isCont b2 && isCont b3 then
          ((b0 % 8) * 262144 + (b1 % 64) * 4096 + (b2 % 64) * 64 + b3 % 64, 4)
        else (65533, 1)
      | _ => (65533, 1)
    else (65533, 1)

/-- UTF-8 encoding appended by `bytes.Buffer.WriteRune`. -/
def encodeRune (r : Nat) : GoString :=
  if r < 128 then [r]
  else if r < 2048 then [192 + r / 64, 128 + r % 64]
  else if (55296 ≤ r && r ≤ 57343) || 1114111 < r then [239, 191, 189]
  else if r < 65536 then [224 + r / 4096, 128 + (r / 64) % 64, 128 + r % 64]
  else [240 + r / 262144, 128 + (r / 4096) % 64, 128 + (r / 64) % 64, 128 + r % 64]

/-! ## `fmtBSSID` -/

/-- Loop of `fmtBSSID` (lines 174-179) from byte offset `i`; `skip` counts the remaining bytes
of the rune decoded last, over which `range` does not stop. -/
def fmtLoop (last : Int) : GoString → Nat → Nat → GoString
  | [], _, _ => []
  | _ :: t, i, skip + 1 => fmtLoop last t (i + 1) skip
  | c :: t, i, 0 =>
    let rw := decodeRune (c :: t)
    encodeRune rw.1 ++ (if i % 2 = 1 ∧ (i : Int) ≠ last then [58] else [])
      ++ fmtLoop last t (i + 1) (rw.2 - 1)

/-- The source function `fmtBSSID` (lines 171-181). -/
def fmtBSSID (rawBSSID : GoString) : GoString :=
  fmtLoop ((rawBSSID.length : Int) - 1) rawBSSID 0 0

/-! ## `parseFilename` -/

/-- The source function `parseFilename` (lines 125-133); `none` is `log.Fatal`. -/
def parseFilename (filename : GoString) : Option (GoString × GoString) :=
  match Split (Replace1 (ascii ".pcap") (ascii "") filename) (ascii "_") with
  | [essid, raw] => some (essid, fmtBSSID raw)
  | _ => none

/-! ## The capture-name pattern of `getFiles`

The pattern is matched on bytes: every atom after the leading `.+?` is ASCII, and a byte
`0x0A` is a newline rune wherever it stands, so the byte-level and rune-level matches agree. -/

/-- Character class `[0-9a-fA-F]`. -/
def isHex (b : Nat) : Bool :=
  (48 ≤ b && b ≤ 57) || (97 ≤ b && b ≤ 102) || (65 ≤ b && b ≤ 70)

/-- The fixed-width part of the pattern, `_[0-9a-fA-F]{12}\.pcap`, one class per byte. -/
def tailClasses : List (Nat → Bool) :=
  (fun b => b == 95) :: (List.replicate 12 isHex ++ (ascii ".pcap").map (fun c b => b == c))

/-- Match a sequence of byte classes at the start of the input. -/
def matchClasses : List (Nat → Bool) → GoString → Bool
  | [], _ => true
  | _ :: _, [] => false
  | p :: ps, b :: bs => p b && matchClasses ps bs

/-- Match `.+?_[0-9a-fA-F]{12}\.pcap` starting at the head of the input: one or more bytes
other than newline, then the fixed-width part. -/
def matchHere : GoString → Bool
  | [] => false
  | c :: rest => c != 10 && (matchClasses tailClasses rest || matchHere rest)

/-- Go `re.MatchString(s)` for the pattern of line 85: the pattern has no anchors, so a match
may start at any offset and end before the end of the input. -/
def reMatchString : GoString → Bool
  | [] => false
  | c :: rest => matchHere (c :: rest) || reMatchString rest

/-! ## The environment and `getFiles` -/

/-- The operating-system calls of the program. -/
structure Env where
  /-- Names returned by `ioutil.ReadDir(path)`, `none` on error. -/
  readDir : GoString → Option (List GoString)
  /-- False exactly when `os.Stat(path)` reports that the path does not exist. -/
  statExists : GoString → Bool
  /-- `filepath.Join(base, name)`. -/
  join : GoString → GoString → GoString
  /-- Number of lines scanned from a wordlist, `none` when `os.Open` fails. -/
  scanLines : GoString → Option Nat
  /-- Standard output and error flag of `exec.Command("aircrack-ng", args...).Output()`. -/
  cmdOutput : List GoString → GoString × Bool

/-- The source function `fileExists` (lines 65-71). -/
def fileExists (env : Env) (path : GoString) : Bool := env.statExists path

/-- The source function `getFiles` (lines 78-98); entries are represented by their names,
`none` is `log.Fatalf`. -/
def getFiles (env : Env) (path : GoString) : Option (List GoString) :=
  match env.readDir path with
  | none => none
  | some files =>
    some (files.filter (fun name =>
      let keyFile := Replace1 (ascii ".pcap") (ascii ".key") name
      let keyFilePath := env.join path keyFile
      reMatchString name && !fileExists env keyFilePath))

/-- The source function `getInputFile` (lines 100-102). -/
def getInputFile (env : Env) (base name : GoString) : GoString := env.join base name

/-- The source function `getKeyFilePath` (lines 135-137). -/
def getKeyFilePath (env : Env) (base name : GoString) : GoString :=
  env.join base (Replace1 (ascii ".pcap") (ascii ".key") name)

/-! ## Data of `main` -/

/-- The source struct `commandline` (lines 35-39). -/
structure commandline where
  input : GoString
  wordlists : List GoString
  verbose : Bool

/-- The source struct `result` (lines 42-51). -/
structure result where
  bssid : GoString
  essid : GoString
  passphrase : GoString
  wordlist : GoString
deriving DecidableEq

/-- Program state threaded through the loops of `main`: the `results` slice, and the argument
lists of the engine processes started so far, oldest first. -/
structure RunState where
  results : List result
  invoked : List (List GoString)
deriving DecidableEq

/-! ## Wordlist counting -/

/-- The source function `countLines` (lines 154-169); `none` is `log.Fatalf`. -/
def countLines (env : Env) (filepath : GoString) : Option Nat := env.scanLines filepath

/-- The source function `countPasswords` (lines 214-222). -/
def countPasswords (env : Env) : List GoString → Option Nat
  | [] => some 0
  | wordlist :: rest =>
    match countLines env wordlist with
    | none => none
    | some n =>
      match countPasswords env rest with
      | none => none
      | some m => some (n + m)

/-- The source function `max` (lines 183-188). -/
def max (a b : Nat) : Nat := if a > b then a else b

/-- The source function `findLongestESSID` (lines 190-198), from the running value `longest`;
`none` is the `log.Fatal` of `parseFilename`. -/
def findLongestESSIDFrom : List GoString → Nat → Option Nat
  | [], longest => some longest
  | file :: rest, longest =>
    match parseFilename file with
    | none => none
    | some (essid, _) => findLongestESSIDFrom rest (max longest essid.length)

/-- The source function `findLongestESSID`. -/
def findLongestESSID (list : List GoString) : Option Nat := findLongestESSIDFrom list 0

/-! ## The engine call and the scheduling loop -/

/-- Argument list built on line 225. -/
def cmdline (bssid essid keyfile wordlist target : GoString) : List GoString :=
  [ascii "-q", ascii "-a2", ascii "-b", bssid, ascii "-l", keyfile, ascii "-e", essid,
   ascii "-w", wordlist, target]

/-- The source function `aircrack` (lines 224-233): the process is started, and its output is
returned unless `err != nil`, in which case the empty string is returned. -/
def aircrack (env : Env) (bssid essid keyfile wordlist target : GoString) (st : RunState) :
    GoString × RunState :=
  let args := cmdline bssid essid keyfile wordlist target
  let st1 : RunState := { st with invoked := st.invoked ++ [args] }
  let out := env.cmdOutput args
  if out.2 then (ascii "", st1) else (out.1, st1)

/-- The four branches of the marker tests of lines 282-306, in source order. -/
inductive Branch where
  | notInDictionary
  | keyFound
  | unsupportedFormat
  | other
deriving DecidableEq

/-- Marker of the first test (line 282). -/
def markerNotFound : GoString := ascii "Passphrase not in dictionary"
/-- Marker of the second test (line 286). -/
def markerFound : GoString := ascii "KEY FOUND"
/-- Marker of the third test (line 298). -/
def markerUnsupported : GoString := ascii "Unsupported file format (not a pcap or IVs file)"

/-- The `if / else if` chain of lines 282-306: which branch runs for the output `s`. -/
def branchOf (s : GoString) : Branch :=
  if Contains s markerNotFound then Branch.notInDictionary
  else if Contains s markerFound then Branch.keyFound
  else if Contains s markerUnsupported then Branch.unsupportedFormat
  else Branch.other

/-- The loop over `args.wordlists` (lines 277-314) for one capture file; `none` is a runtime
panic of `getKeyFromOutput`. Only the `keyFound` branch appends a result and breaks. -/
def wordlistLoop (env : Env) (bssid essid target abs : GoString) :
    List GoString → RunState → Option RunState
  | [], st => some st
  | wordlist :: rest, st =>
    let r := aircrack env bssid essid target wordlist abs st
    match branchOf r.1 with
    | Branch.notInDictionary => wordlistLoop env bssid essid target abs rest r.2
    | Branch.keyFound =>
      match getKeyFromOutput r.1 with
      | none => none
      | some key =>
        some { r.2 with results := r.2.results ++
          [{ bssid := bssid, essid := essid, passphrase := key, wordlist := wordlist }] }
    | Branch.unsupportedFormat => wordlistLoop env bssid essid target abs rest r.2
    | Branch.other => wordlistLoop env bssid essid target abs rest r.2

/-- The loop over `files` (lines 267-320); `none` is `log.Fatal` or a runtime panic. -/
def fileLoop (env : Env) (args : commandline) : List GoString → RunState → Option RunState
  | [], st => some st
  | file :: rest, st =>
    let abs := getInputFile env args.input file
    match parseFilename file with
    | none => none
    | some (essid, bssid) =>
      let target := getKeyFilePath env args.input file
      match wordlistLoop env bssid essid target abs args.wordlists st with
      | none => none
      | some st1 => fileLoop env args rest st1

/-- The source function `main` (lines 246-323) after `parseCommandLine`: the state at the call
of `report`, whose `results` field is the argument of `report`; `none` is a fatal exit. -/
def main (env : Env) (args : commandline) : Option RunState :=
  match getFiles env args.input with
  | none => none
  | some files =>
    match findLongestESSID files with
    | none => none
    | some _ =>
      match countPasswords env args.wordlists with
      | none => none
      | some _ => fileLoop env args files { results := [], invoked := [] }

/-! ## Definitions used to state the properties -/

/-- Output that `aircrack` hands to the marker tests for one wordlist; it does not depend on
the program state. -/
def outputOf (env : Env) (bssid essid keyfile target wordlist : GoString) : GoString :=
  (aircrack env bssid essid keyfile wordlist target { results := [], invoked := [] }).1

/-- Extraction as worded in the specification: the text strictly between the first `[` and
the last `]`, or `<unknown>` when the brackets are missing, out of order or enclose nothing. -/
def keyBetweenBrackets (s : GoString) : GoString :=
  let i := Index s (ascii "[")
  let j := LastIndex s (ascii "]")
  if 0 ≤ i ∧ i < j then
    let t := (s.drop (i.toNat + 1)).take (j.toNat - (i.toNat + 1))
    if t = [] then ascii "<unknown>" else t
  else ascii "<unknown>"

/-- Specification view of one target: the result of the first wordlist, in configured order,
whose output takes the `keyFound` branch, if there is one. -/
def specTargetResult (env : Env) (args : commandline) (file : GoString) : Option result :=
  match parseFilename file with
  | none => none
  | some (essid, bssid) =>
    let out := outputOf env bssid essid (getKeyFilePath env args.input file)
      (getInputFile env args.input file)
    match args.wordlists.find? (fun w => decide (branchOf (out w) = Branch.keyFound)) with
    | none => none
    | some w =>
      (getKeyFromOutput (out w)).map (fun key =>
        { bssid := bssid, essid := essid, passphrase := key, wordlist := w })

/-- Capture naming as worded in the specification: the whole name is a non-empty name
followed by `_`, twelve hex digits and `.pcap`. -/
def wholeNameMatch (name : GoString) : Bool :=
  decide (18 < name.length) && matchClasses tailClasses (name.drop (name.length - 18))

/-- A test environment: a directory listing, the paths that exist, and an engine given as a
function of the capture path and the wordlist path. -/
def testEnv (listing existing : List GoString)
    (engine : GoString → GoString → GoString × Bool) : Env where
  readDir := fun _ => some listing
  statExists := fun p => decide (p ∈ existing)
  join := fun base name => base ++ ascii "/" ++ name
  scanLines := fun _ => some 0
  cmdOutput := fun a => engine (a.getD 10 []) (a.getD 9 [])

/-- An engine whose output carries both markers whatever it is asked. -/
def bothMarkersEngine : GoString → GoString → GoString × Bool :=
  fun _ _ => (ascii "KEY FOUND! [ hunter2 ] Passphrase not in dictionary", false)

/-- An engine that finds `hunter2` in the wordlist `W2` and nothing elsewhere. -/
def hunterEngine : GoString → GoString → GoString × Bool :=
  fun _ w =>
    if w = ascii "W2" then (ascii "KEY FOUND! [ hunter2 ]", false)
    else (ascii "Passphrase not in dictionary", false)

/-- An engine that fails to run on `W1` and finds `secret1` in `W2`. -/
def failingEngine : GoString → GoString → GoString × Bool :=
  fun _ w =>
    if w = ascii "W1" then (ascii "KEY FOUND! [ lost ]", true)
    else if w = ascii "W2" then (ascii "KEY FOUND! [ secret1 ]", false)
    else (ascii "Passphrase not in dictionary", false)

/-- An engine that succeeds only on the capture `d/home_0123456789ab.pcap`. -/
def secondTargetEngine : GoString → GoString → GoString × Bool :=
  fun t _ =>
    if t = ascii "d/home_0123456789ab.pcap" then (ascii "KEY FOUND! [ hunter2 ]", false)
    else (ascii "Passphrase not in dictionary", false)

end GoCrack

namespace GoCrack

/-! ## Facts about the string primitives -/

theorem isPrefixOf_single_cons (a c : Nat) (t : GoString) :
    ([a] : GoString).isPrefixOf (c :: t) = (a == c) := by
  simp [List.isPrefixOf]

theorem isPrefixOf_single_nil (a : Nat) : ([a] : GoString).isPrefixOf [] = false := rfl

theorem indexFrom_ge (sub : GoString) (s : GoString) (i : Nat) : -1 ≤ indexFrom sub s i := by
  induction s generalizing i with
  | nil => unfold indexFrom; split <;> omega
  | cons c t ih =>
    unfold indexFrom
    split
    · omega
    · exact ih (i + 1)

theorem lastIndexFrom_le (sub : GoString) (s : GoString) (i : Nat) (acc : Int)
    (hacc : acc ≤ (i : Int) + s.length) :
    lastIndexFrom sub s i acc ≤ (i : Int) + s.length := by
  induction s generalizing i acc with
  | nil => unfold lastIndexFrom; split <;> simp_all
  | cons c t ih =>
    unfold lastIndexFrom
    have h := ih (i + 1) (if sub.isPrefixOf (c :: t) then (i : Int) else acc) (by
      split
      · push_cast; omega
      · simp only [List.length_cons] at hacc; push_cast at hacc ⊢; omega)
    simp only [List.length_cons]; push_cast at h ⊢; omega

theorem indexFrom_single_absent (a : Nat) (s : GoString) (i : Nat) (h : a ∉ s) :
    indexFrom [a] s i = -1 := by
  induction s generalizing i with
  | nil => simp [indexFrom, isPrefixOf_single_nil]
  | cons c t ih =>
    simp only [List.mem_cons, not_or] at h
    unfold indexFrom
    rw [isPrefixOf_single_cons]
    simp [h.1, ih (i + 1) h.2]

theorem indexFrom_single_first (a : Nat) (pre rest : GoString) (i : Nat) (h : a ∉ pre) :
    indexFrom [a] (pre ++ a :: rest) i = (i : Int) + pre.length := by
  induction pre generalizing i with
  | nil => simp [indexFrom, isPrefixOf_single_cons]
  | cons c t ih =>
    simp only [List.mem_cons, not_or] at h
    simp only [List.cons_append]
    unfold indexFrom
    rw [isPrefixOf_single_cons]
    simp only [beq_iff_eq, h.1, if_false, ih (i + 1) h.2, List.length_cons]
    push_cast; omega

theorem lastIndexFrom_single_absent (a : Nat) (s : GoString) (i : Nat) (acc : Int)
    (h : a ∉ s) : lastIndexFrom [a] s i acc = acc := by
  induction s generalizing i acc with
  | nil => simp [lastIndexFrom, isPrefixOf_single_nil]
  | cons c t ih =>
    simp only [List.mem_cons, not_or] at h
    unfold lastIndexFrom
    rw [isPrefixOf_single_cons, ih (i + 1) _ h.2]
    simp [h.1]

theorem lastIndexFrom_single_last (a : Nat) (pre post : GoString) (i : Nat) (acc : Int)
    (h : a ∉ post) : lastIndexFrom [a] (pre ++ a :: post) i acc = (i : Int) + pre.length := by
  induction pre generalizing i acc with
  | nil =>
    simp only [List.nil_append, List.length_nil]
    unfold lastIndexFrom
    rw [isPrefixOf_single_cons, lastIndexFrom_single_absent a post (i + 1) _ h]
    simp
  | cons c t ih =>
    simp only [List.cons_append]
    unfold lastIndexFrom
    rw [ih (i + 1)]
    simp only [List.length_cons]; push_cast; omega

theorem Index_ge (s sub : GoString) : -1 ≤ Index s sub := indexFrom_ge sub s 0

theorem LastIndex_le (s sub : GoString) : LastIndex s sub ≤ s.length := by
  have h := lastIndexFrom_le sub s 0 (-1) (by push_cast; omega)
  simpa [LastIndex] using h

/-- Bounds of the slice taken by `getKeyFromOutput`. -/
theorem getKey_bounds (s : GoString) :
    0 ≤ Index s (ascii "[") + 2 ∧ LastIndex s (ascii "]") - 1 ≤ (s.length : Int) := by
  have h1 := Index_ge s (ascii "[")
  have h2 := LastIndex_le s (ascii "]")
  constructor <;> omega

/-- `getKeyFromOutput` never panics. -/
theorem getKeyFromOutput_total (s : GoString) : ∃ key, getKeyFromOutput s = some key := by
  have hb := getKey_bounds s
  unfold getKeyFromOutput
  simp only
  split
  · exact ⟨_, rfl⟩
  · rename_i hlt
    unfold slice
    rw [if_pos ⟨hb.1, by omega, hb.2⟩]
    exact ⟨_, rfl⟩

end GoCrack

namespace GoCrack

/-! ## C10: the marker tests and the extraction are total -/

/-- C10: for every raw output the marker tests of lines 282-306 run exactly one of their four
branches (each branch is characterised by the tests before it failing and its own succeeding),
and `getKeyFromOutput` never slices out of range: when its guard `end <= begin` is false,
`0 <= begin < end <= len(s)`, so it always returns a string. -/
theorem C10_classification_and_extraction_total (s : GoString) :
    ((branchOf s = Branch.notInDictionary ↔ Contains s markerNotFound = true) ∧
     (branchOf s = Branch.keyFound ↔
        Contains s markerNotFound = false ∧ Contains s markerFound = true) ∧
     (branchOf s = Branch.unsupportedFormat ↔
        Contains s markerNotFound = false ∧ Contains s markerFound = false ∧
        Contains s markerUnsupported = true) ∧
     (branchOf s = Branch.other ↔
        Contains s markerNotFound = false ∧ Contains s markerFound = false ∧
        Contains s markerUnsupported = false)) ∧
    (¬ (LastIndex s (ascii "]") - 1 ≤ Index s (ascii "[") + 2) →
        0 ≤ Index s (ascii "[") + 2 ∧
        Index s (ascii "[") + 2 < LastIndex s (ascii "]") - 1 ∧
        LastIndex s (ascii "]") - 1 ≤ (s.length : Int)) ∧
    (∃ key, getKeyFromOutput s = some key) := by
  refine ⟨?_, ?_, getKeyFromOutput_total s⟩
  · unfold branchOf
    cases Contains s markerNotFound <;> cases Contains s markerFound <;>
      cases Contains s markerUnsupported <;> simp
  · intro h
    have hb := getKey_bounds s
    exact ⟨hb.1, by omega, hb.2⟩

/-- C10, witness: on `KEY FOUND! [ hunter2 ]` the guard `end <= begin` is false and the slice
bounds are in range. -/
theorem C10_classification_and_extraction_total_witness :
    ¬ (LastIndex (ascii "KEY FOUND! [ hunter2 ]") (ascii "]") - 1
        ≤ Index (ascii "KEY FOUND! [ hunter2 ]") (ascii "[") + 2) ∧
    (0 ≤ Index (ascii "KEY FOUND! [ hunter2 ]") (ascii "[") + 2 ∧
     Index (ascii "KEY FOUND! [ hunter2 ]") (ascii "[") + 2
       < LastIndex (ascii "KEY FOUND! [ hunter2 ]") (ascii "]") - 1 ∧
     LastIndex (ascii "KEY FOUND! [ hunter2 ]") (ascii "]") - 1
       ≤ ((ascii "KEY FOUND! [ hunter2 ]").length : Int)) :=
  ⟨by decide,
   (C10_classification_and_extraction_total (ascii "KEY FOUND! [ hunter2 ]")).2.1 (by decide)⟩

end GoCrack

namespace GoCrack

/-! ## C3: what `getKeyFromOutput` extracts -/

/-- C3, counterexample: on the engine's success line `KEY FOUND! [ hunter2 ]` the code returns
`hunter2`, while the text strictly between the brackets is ` hunter2 ` with its two blanks; on
`[ab]` the text between the brackets is `ab`, not empty, and the code returns `<unknown>`. -/
theorem C3_counterexample :
    getKeyFromOutput (ascii "KEY FOUND! [ hunter2 ]") = some (ascii "hunter2") ∧
    keyBetweenBrackets (ascii "KEY FOUND! [ hunter2 ]") = ascii " hunter2 " ∧
    getKeyFromOutput (ascii "[ab]") = some (ascii "<unknown>") ∧
    keyBetweenBrackets (ascii "[ab]") = ascii "ab" := by
  decide

/-- C3, amended: when the first `[` of the output comes before its last `]`, with `mid` the
text strictly between them, `getKeyFromOutput` returns `mid` without its first and its last
byte if `mid` has at least three bytes, and `<unknown>` if it is shorter; it returns
`<unknown>` as well when the output has no `]`, and when its last `]` stands before its
first `[`. -/
theorem C3_getKeyFromOutput_strips_padding (pre mid post : GoString) :
    (91 ∉ pre → 93 ∉ post →
      getKeyFromOutput (pre ++ 91 :: mid ++ 93 :: post) =
        some (if 2 < mid.length then (mid.drop 1).dropLast else ascii "<unknown>")) ∧
    (93 ∉ pre → getKeyFromOutput pre = some (ascii "<unknown>")) ∧
    (91 ∉ pre → 91 ∉ mid → 93 ∉ mid → 93 ∉ post →
      getKeyFromOutput (pre ++ 93 :: mid ++ 91 :: post) = some (ascii "<unknown>")) := by
  have hl : ascii "[" = [91] := by decide
  have hr : ascii "]" = [93] := by decide
  refine ⟨?_, ?_, ?_⟩
  · intro h1 h2
    have hi : Index (pre ++ 91 :: mid ++ 93 :: post) [91] = (pre.length : Int) := by
      have := indexFrom_single_first 91 pre (mid ++ 93 :: post) 0 h1
      simpa [Index] using this
    have hj : LastIndex (pre ++ 91 :: mid ++ 93 :: post) [93]
        = (pre.length : Int) + 1 + mid.length := by
      have := lastIndexFrom_single_last 93 (pre ++ 91 :: mid) post 0 (-1) h2
      simp only [List.append_assoc, List.cons_append, List.length_append,
        List.length_cons] at this
      simp only [LastIndex, List.append_assoc, List.cons_append]
      rw [this]; push_cast; omega
    unfold getKeyFromOutput
    simp only [hl, hr, hi, hj]
    by_cases hm : 2 < mid.length
    · rw [if_neg (by omega), if_pos hm]
      unfold slice
      rw [if_pos (by
        refine ⟨by omega, by omega, ?_⟩
        simp only [List.length_append, List.length_cons]; push_cast; omega)]
      congr 1
      have e1 : ((pre.length : Int) + 2).toNat = pre.length + 2 := by omega
      have e2 : ((pre.length : Int) + 1 + mid.length - 1 - ((pre.length : Int) + 2)).toNat
          = mid.length - 2 := by omega
      rw [e1, e2]
      have e3 : (pre ++ 91 :: mid ++ 93 :: post).drop (pre.length + 2)
          = mid.drop 1 ++ 93 :: post := by
        rw [List.append_assoc, List.drop_append_eq_append_drop]
        simp only [List.drop_eq_nil_of_le (Nat.le_add_right pre.length 2), List.nil_append,
          Nat.add_sub_cancel_left]
        cases mid with
        | nil => simp at hm
        | cons m ms => simp
      rw [e3, List.dropLast_eq_take, List.take_append_eq_append_take]
      have e4 : mid.length - 2 - (mid.drop 1).length = 0 := by
        simp only [List.length_drop]; omega
      have e5 : (mid.drop 1).length - 1 = mid.length - 2 := by
        simp only [List.length_drop]; omega
      rw [e4, e5]; simp
    · rw [if_pos (by omega), if_neg hm]
  · intro h
    have hj : LastIndex pre [93] = -1 := by
      simpa [LastIndex] using lastIndexFrom_single_absent 93 pre 0 (-1) h
    have hi := Index_ge pre [91]
    unfold getKeyFromOutput
    simp only [hl, hr, hj]
    rw [if_pos (by omega)]
  · intro h1 h2 h3 h4
    have hi : Index (pre ++ 93 :: mid ++ 91 :: post) [91]
        = (pre.length : Int) + 1 + mid.length := by
      have := indexFrom_single_first 91 (pre ++ 93 :: mid) post 0 (by
        simp only [List.mem_append, List.mem_cons]; rintro (h | h | h)
        · exact h1 h
        · omega
        · exact h2 h)
      simp only [List.append_assoc, List.cons_append, List.length_append,
        List.length_cons] at this
      simp only [Index, List.append_assoc, List.cons_append]
      rw [this]; push_cast; omega
    have hj : LastIndex (pre ++ 93 :: mid ++ 91 :: post) [93] = (pre.length : Int) := by
      have := lastIndexFrom_single_last 93 pre (mid ++ 91 :: post) 0 (-1) (by
        simp only [List.mem_append, List.mem_cons]; rintro (h | h | h)
        · exact h3 h
        · omega
        · exact h4 h)
      simpa [LastIndex] using this
    unfold getKeyFromOutput
    simp only [hl, hr, hi, hj]
    rw [if_pos (by omega)]

/-- C3, witness of the amended statement on `KEY FOUND! [ hunter2 ]`, on an output without a
closing bracket and on `]x[`. -/
theorem C3_getKeyFromOutput_strips_padding_witness :
    getKeyFromOutput (ascii "KEY FOUND! " ++ 91 :: ascii " hunter2 " ++ 93 :: ascii "")
      = some (if 2 < (ascii " hunter2 ").length then ((ascii " hunter2 ").drop 1).dropLast
          else ascii "<unknown>") ∧
    getKeyFromOutput (ascii "KEY FOUND! [ hunter2") = some (ascii "<unknown>") ∧
    getKeyFromOutput (ascii "" ++ 93 :: ascii "x" ++ 91 :: ascii "") = some (ascii "<unknown>") :=
  ⟨(C3_getKeyFromOutput_strips_padding (ascii "KEY FOUND! ") (ascii " hunter2 ") (ascii "")).1
      (by decide) (by decide),
   (C3_getKeyFromOutput_strips_padding (ascii "KEY FOUND! [ hunter2") [] []).2.1 (by decide),
   (C3_getKeyFromOutput_strips_padding (ascii "") (ascii "x") (ascii "")).2.2
      (by decide) (by decide) (by decide) (by decide)⟩

end GoCrack

namespace GoCrack

/-! ## Facts about the scheduling loop -/

theorem aircrack_fst (env : Env) (bssid essid keyfile wordlist target : GoString)
    (st : RunState) :
    (aircrack env bssid essid keyfile wordlist target st).1
      = outputOf env bssid essid keyfile target wordlist := by
  unfold outputOf aircrack
  simp only
  split <;> rfl

theorem aircrack_snd (env : Env) (bssid essid keyfile wordlist target : GoString)
    (st : RunState) :
    (aircrack env bssid essid keyfile wordlist target st).2
      = { results := st.results,
          invoked := st.invoked ++ [cmdline bssid essid keyfile wordlist target] } := by
  unfold aircrack
  simp only
  split <;> rfl

/-- A wordlist whose output does not take the `keyFound` branch leaves the results as they
are and hands over to the next wordlist. -/
theorem wordlistLoop_continue (env : Env) (bssid essid target abs w : GoString)
    (rest : List GoString) (st : RunState)
    (h : branchOf (outputOf env bssid essid target abs w) ≠ Branch.keyFound) :
    wordlistLoop env bssid essid target abs (w :: rest) st
      = wordlistLoop env bssid essid target abs rest
          { results := st.results,
            invoked := st.invoked ++ [cmdline bssid essid target w abs] } := by
  rw [wordlistLoop]
  simp only [aircrack_fst, aircrack_snd]
  cases hb : branchOf (outputOf env bssid essid target abs w) <;> simp_all

/-- A wordlist whose output takes the `keyFound` branch appends its result and ends the
loop. -/
theorem wordlistLoop_found (env : Env) (bssid essid target abs w : GoString)
    (rest : List GoString) (st : RunState) (key : GoString)
    (h : branchOf (outputOf env bssid essid target abs w) = Branch.keyFound)
    (hk : getKeyFromOutput (outputOf env bssid essid target abs w) = some key) :
    wordlistLoop env bssid essid target abs (w :: rest) st
      = some { results := st.results ++
                 [{ bssid := bssid, essid := essid, passphrase := key, wordlist := w }],
               invoked := st.invoked ++ [cmdline bssid essid target w abs] } := by
  rw [wordlistLoop]
  simp only [aircrack_fst, aircrack_snd, h, hk]

/-- Wordlists without a `keyFound` output are all invoked, in order, and passed over. -/
theorem wordlistLoop_skip (env : Env) (bssid essid target abs : GoString)
    (pre rest : List GoString) (st : RunState)
    (h : ∀ x ∈ pre, branchOf (outputOf env bssid essid target abs x) ≠ Branch.keyFound) :
    wordlistLoop env bssid essid target abs (pre ++ rest) st
      = wordlistLoop env bssid essid target abs rest
          { results := st.results,
            invoked := st.invoked ++ pre.map (fun x => cmdline bssid essid target x abs) } := by
  induction pre generalizing st with
  | nil => simp
  | cons x xs ih =>
    rw [List.cons_append, wordlistLoop_continue env bssid essid target abs x _ st
      (h x (List.mem_cons_self x xs)), ih _ (fun y hy => h y (List.mem_cons_of_mem x hy))]
    simp

end GoCrack

namespace GoCrack

/-! ## C1: precedence of the markers -/

/-- C1, counterexample: the output `KEY FOUND! [ hunter2 ] Passphrase not in dictionary`
contains both markers, the marker tests take the `notInDictionary` branch, and the loop over
the wordlists `W1`, `W2` records no result and invokes the engine on both. -/
theorem C1_counterexample :
    Contains (ascii "KEY FOUND! [ hunter2 ] Passphrase not in dictionary") markerFound = true ∧
    Contains (ascii "KEY FOUND! [ hunter2 ] Passphrase not in dictionary") markerNotFound
      = true ∧
    branchOf (ascii "KEY FOUND! [ hunter2 ] Passphrase not in dictionary")
      = Branch.notInDictionary ∧
    wordlistLoop (testEnv [] [] bothMarkersEngine) (ascii "01:23:45:67:89:ab") (ascii "home")
        (ascii "d/home_0123456789ab.key") (ascii "d/home_0123456789ab.pcap")
        [ascii "W1", ascii "W2"] { results := [], invoked := [] }
      = some { results := [],
               invoked := [cmdline (ascii "01:23:45:67:89:ab") (ascii "home")
                             (ascii "d/home_0123456789ab.key") (ascii "W1")
                             (ascii "d/home_0123456789ab.pcap"),
                           cmdline (ascii "01:23:45:67:89:ab") (ascii "home")
                             (ascii "d/home_0123456789ab.key") (ascii "W2")
                             (ascii "d/home_0123456789ab.pcap")] } := by
  decide

/-- C1, amended: an engine output that contains `KEY FOUND` yields Found (a result is
recorded for the target and its remaining wordlists are not attempted) when it does not
contain `Passphrase not in dictionary`; when it contains both markers the test for
`Passphrase not in dictionary`, which comes first, wins: no result is recorded and the loop
goes on with the next wordlist. -/
theorem C1_found_unless_not_in_dictionary (env : Env) (bssid essid target abs w : GoString)
    (rest : List GoString) (st : RunState)
    (hf : Contains (outputOf env bssid essid target abs w) markerFound = true) :
    (Contains (outputOf env bssid essid target abs w) markerNotFound = false →
      branchOf (outputOf env bssid essid target abs w) = Branch.keyFound ∧
      ∃ key, getKeyFromOutput (outputOf env bssid essid target abs w) = some key ∧
        wordlistLoop env bssid essid target abs (w :: rest) st
          = some { results := st.results ++
                     [{ bssid := bssid, essid := essid, passphrase := key, wordlist := w }],
                   invoked := st.invoked ++ [cmdline bssid essid target w abs] }) ∧
    (Contains (outputOf env bssid essid target abs w) markerNotFound = true →
      branchOf (outputOf env bssid essid target abs w) = Branch.notInDictionary ∧
      wordlistLoop env bssid essid target abs (w :: rest) st
        = wordlistLoop env bssid essid target abs rest
            { results := st.results,
              invoked := st.invoked ++ [cmdline bssid essid target w abs] }) := by
  constructor
  · intro hn
    have hb : branchOf (outputOf env bssid essid target abs w) = Branch.keyFound := by
      unfold branchOf; simp [hn, hf]
    obtain ⟨key, hk⟩ := getKeyFromOutput_total (outputOf env bssid essid target abs w)
    exact ⟨hb, key, hk, wordlistLoop_found env bssid essid target abs w rest st key hb hk⟩
  · intro hn
    have hb : branchOf (outputOf env bssid essid target abs w) = Branch.notInDictionary := by
      unfold branchOf; simp [hn]
    exact ⟨hb, wordlistLoop_continue env bssid essid target abs w rest st (by rw [hb]; decide)⟩

/-- C1, witness of the amended statement: the engine that finds `hunter2` in `W2`, asked for
`W2` first. -/
theorem C1_found_unless_not_in_dictionary_witness :
    Contains (outputOf (testEnv [] [] hunterEngine) (ascii "01:23:45:67:89:ab") (ascii "home")
      (ascii "d/home_0123456789ab.key") (ascii "d/home_0123456789ab.pcap") (ascii "W2"))
      markerFound = true ∧
    branchOf (outputOf (testEnv [] [] hunterEngine) (ascii "01:23:45:67:89:ab") (ascii "home")
      (ascii "d/home_0123456789ab.key") (ascii "d/home_0123456789ab.pcap") (ascii "W2"))
      = Branch.keyFound :=
  ⟨by decide,
   ((C1_found_unless_not_in_dictionary (testEnv [] [] hunterEngine) (ascii "01:23:45:67:89:ab")
      (ascii "home") (ascii "d/home_0123456789ab.key") (ascii "d/home_0123456789ab.pcap")
      (ascii "W2") [ascii "W3"] { results := [], invoked := [] } (by decide)).1
      (by decide)).1⟩

end GoCrack

namespace GoCrack

/-! ## C2: first success wins -/

/-- C2: for every target, wordlist list and engine, the loop invokes the engine on the
wordlists in configured order, on exactly the prefix that ends with the first wordlist whose
output takes the `keyFound` branch (on all of them when there is none), and appends exactly
one result, with that wordlist's path and the passphrase that `getKeyFromOutput` extracts
from its output, when there is such a wordlist, and none otherwise. -/
theorem C2_first_success_wins (env : Env) (bssid essid target abs : GoString)
    (wordlists : List GoString) (st : RunState) :
    (∀ pre w post, wordlists = pre ++ w :: post →
      (∀ x ∈ pre, branchOf (outputOf env bssid essid target abs x) ≠ Branch.keyFound) →
      branchOf (outputOf env bssid essid target abs w) = Branch.keyFound →
      ∃ key, getKeyFromOutput (outputOf env bssid essid target abs w) = some key ∧
        wordlistLoop env bssid essid target abs wordlists st
          = some { results := st.results ++
                     [{ bssid := bssid, essid := essid, passphrase := key, wordlist := w }],
                   invoked := st.invoked ++
                     (pre ++ [w]).map (fun x => cmdline bssid essid target x abs) }) ∧
    ((∀ x ∈ wordlists, branchOf (outputOf env bssid essid target abs x) ≠ Branch.keyFound) →
      wordlistLoop env bssid essid target abs wordlists st
        = some { results := st.results,
                 invoked := st.invoked ++
                   wordlists.map (fun x => cmdline bssid essid target x abs) }) := by
  constructor
  · intro pre w post hw hpre hfound
    obtain ⟨key, hk⟩ := getKeyFromOutput_total (outputOf env bssid essid target abs w)
    refine ⟨key, hk, ?_⟩
    rw [hw, wordlistLoop_skip env bssid essid target abs pre (w :: post) st hpre,
      wordlistLoop_found env bssid essid target abs w post _ key hfound hk]
    simp
  · intro hall
    have h := wordlistLoop_skip env bssid essid target abs wordlists [] st hall
    rw [List.append_nil] at h
    rw [h, wordlistLoop]

/-- C2, witness: with `W1` (no match), `W2` (output `KEY FOUND! [ hunter2 ]`) and `W3`, the
engine is invoked on `W1` and `W2` only, and the single result carries `hunter2` and `W2`. -/
theorem C2_first_success_wins_witness :
    wordlistLoop (testEnv [] [] hunterEngine) (ascii "01:23:45:67:89:ab") (ascii "home")
        (ascii "d/home_0123456789ab.key") (ascii "d/home_0123456789ab.pcap")
        [ascii "W1", ascii "W2", ascii "W3"] { results := [], invoked := [] }
      = some { results := [{ bssid := ascii "01:23:45:67:89:ab", essid := ascii "home",
                             passphrase := ascii "hunter2", wordlist := ascii "W2" }],
               invoked := [cmdline (ascii "01:23:45:67:89:ab") (ascii "home")
                             (ascii "d/home_0123456789ab.key") (ascii "W1")
                             (ascii "d/home_0123456789ab.pcap"),
                           cmdline (ascii "01:23:45:67:89:ab") (ascii "home")
                             (ascii "d/home_0123456789ab.key") (ascii "W2")
                             (ascii "d/home_0123456789ab.pcap")] } := by
  obtain ⟨key, hk, h⟩ := (C2_first_success_wins (testEnv [] [] hunterEngine)
    (ascii "01:23:45:67:89:ab") (ascii "home") (ascii "d/home_0123456789ab.key")
    (ascii "d/home_0123456789ab.pcap") [ascii "W1", ascii "W2", ascii "W3"]
    { results := [], invoked := [] }).1 [ascii "W1"] (ascii "W2") [ascii "W3"] rfl
    (by intro x hx; rw [List.mem_singleton] at hx; subst hx; decide) (by decide)
  have hkey : getKeyFromOutput (outputOf (testEnv [] [] hunterEngine)
      (ascii "01:23:45:67:89:ab") (ascii "home") (ascii "d/home_0123456789ab.key")
      (ascii "d/home_0123456789ab.pcap") (ascii "W2")) = some (ascii "hunter2") := by decide
  rw [hkey] at hk
  cases hk
  rw [h]
  rfl

/-! ## C8: a failed invocation does not stop the loop -/

/-- C8: if the engine invocation fails on a wordlist `w` (`aircrack` then returns the empty
output) and no earlier wordlist took the `keyFound` branch, the failure appends no result and
the loop goes on with the wordlists after `w`; a later wordlist `v` that is the first to take
the `keyFound` branch yields the target's result, with the path of `v`. -/
theorem C8_invocation_failure_continues (env : Env) (bssid essid target abs : GoString)
    (pre : List GoString) (w : GoString) (post : List GoString) (st : RunState)
    (hpre : ∀ x ∈ pre, branchOf (outputOf env bssid essid target abs x) ≠ Branch.keyFound)
    (herr : (env.cmdOutput (cmdline bssid essid target w abs)).2 = true) :
    outputOf env bssid essid target abs w = ascii "" ∧
    wordlistLoop env bssid essid target abs (pre ++ w :: post) st
      = wordlistLoop env bssid essid target abs post
          { results := st.results,
            invoked := st.invoked ++
              (pre ++ [w]).map (fun x => cmdline bssid essid target x abs) } ∧
    (∀ mid v post2, post = mid ++ v :: post2 →
      (∀ x ∈ mid, branchOf (outputOf env bssid essid target abs x) ≠ Branch.keyFound) →
      branchOf (outputOf env bssid essid target abs v) = Branch.keyFound →
      ∃ key, getKeyFromOutput (outputOf env bssid essid target abs v) = some key ∧
        wordlistLoop env bssid essid target abs (pre ++ w :: post) st
          = some { results := st.results ++
                     [{ bssid := bssid, essid := essid, passphrase := key, wordlist := v }],
                   invoked := st.invoked ++
                     (pre ++ w :: mid ++ [v]).map (fun x => cmdline bssid essid target x abs) })
    := by
  have hout : outputOf env bssid essid target abs w = ascii "" := by
    unfold outputOf aircrack
    simp [herr]
  have hw : branchOf (outputOf env bssid essid target abs w) ≠ Branch.keyFound := by
    rw [hout]; decide
  have hstep : wordlistLoop env bssid essid target abs (pre ++ w :: post) st
      = wordlistLoop env bssid essid target abs post
          { results := st.results,
            invoked := st.invoked ++
              (pre ++ [w]).map (fun x => cmdline bssid essid target x abs) } := by
    rw [wordlistLoop_skip env bssid essid target abs pre (w :: post) st hpre,
      wordlistLoop_continue env bssid essid target abs w post _ hw]
    simp
  refine ⟨hout, hstep, ?_⟩
  intro mid v post2 hpost hmid hv
  obtain ⟨key, hk⟩ := getKeyFromOutput_total (outputOf env bssid essid target abs v)
  refine ⟨key, hk, ?_⟩
  rw [hstep, hpost, wordlistLoop_skip env bssid essid target abs mid (v :: post2) _ hmid,
    wordlistLoop_found env bssid essid target abs v post2 _ key hv hk]
  simp

/-- C8, witness: the engine fails on `W1` and finds `secret1` in `W2`; the loop over `W1`,
`W2`, `W3` invokes `W1` and `W2` and records the result of `W2`. -/
theorem C8_invocation_failure_continues_witness :
    wordlistLoop (testEnv [] [] failingEngine) (ascii "01:23:45:67:89:ab") (ascii "home")
        (ascii "d/home_0123456789ab.key") (ascii "d/home_0123456789ab.pcap")
        ([] ++ ascii "W1" :: [ascii "W2", ascii "W3"]) { results := [], invoked := [] }
      = some { results := [{ bssid := ascii "01:23:45:67:89:ab", essid := ascii "home",
                             passphrase := ascii "secret1", wordlist := ascii "W2" }],
               invoked := [cmdline (ascii "01:23:45:67:89:ab") (ascii "home")
                             (ascii "d/home_0123456789ab.key") (ascii "W1")
                             (ascii "d/home_0123456789ab.pcap"),
                           cmdline (ascii "01:23:45:67:89:ab") (ascii "home")
                             (ascii "d/home_0123456789ab.key") (ascii "W2")
                             (ascii "d/home_0123456789ab.pcap")] } := by
  obtain ⟨key, hk, h⟩ := (C8_invocation_failure_continues (testEnv [] [] failingEngine)
    (ascii "01:23:45:67:89:ab") (ascii "home") (ascii "d/home_0123456789ab.key")
    (ascii "d/home_0123456789ab.pcap") [] (ascii "W1") [ascii "W2", ascii "W3"]
    { results := [], invoked := [] } (by intro x hx; cases hx) (by decide)).2.2
    [] (ascii "W2") [ascii "W3"] rfl (by intro x hx; cases hx) (by decide)
  have hkey : getKeyFromOutput (outputOf (testEnv [] [] failingEngine)
      (ascii "01:23:45:67:89:ab") (ascii "home") (ascii "d/home_0123456789ab.key")
      (ascii "d/home_0123456789ab.pcap") (ascii "W2")) = some (ascii "secret1") := by decide
  rw [hkey] at hk
  cases hk
  rw [h]
  rfl

end GoCrack

namespace GoCrack

/-! ## C9: the aggregate results -/

/-- Result that the loop over the wordlists appends for a target that parsed to
`(essid, bssid)`: that of the first wordlist whose output takes the `keyFound` branch. -/
theorem wordlistLoop_results (env : Env) (bssid essid target abs : GoString)
    (wordlists : List GoString) (st : RunState) :
    ∃ inv, wordlistLoop env bssid essid target abs wordlists st
      = some { results := st.results ++
                 ((wordlists.find? (fun w =>
                     decide (branchOf (outputOf env bssid essid target abs w)
                       = Branch.keyFound))).bind (fun w =>
                   (getKeyFromOutput (outputOf env bssid essid target abs w)).map (fun key =>
                     ({ bssid := bssid, essid := essid, passphrase := key,
                        wordlist := w } : result)))).toList,
               invoked := inv } := by
  induction wordlists generalizing st with
  | nil => exact ⟨st.invoked, by simp [wordlistLoop]⟩
  | cons w rest ih =>
    by_cases hw : branchOf (outputOf env bssid essid target abs w) = Branch.keyFound
    · obtain ⟨key, hk⟩ := getKeyFromOutput_total (outputOf env bssid essid target abs w)
      refine ⟨st.invoked ++ [cmdline bssid essid target w abs], ?_⟩
      rw [wordlistLoop_found env bssid essid target abs w rest st key hw hk]
      simp [List.find?, hw, hk]
    · obtain ⟨inv, hinv⟩ := ih
        { results := st.results,
          invoked := st.invoked ++ [cmdline bssid essid target w abs] }
      refine ⟨inv, ?_⟩
      rw [wordlistLoop_continue env bssid essid target abs w rest st hw, hinv]
      simp [List.find?, hw]

theorem specTargetResult_of_parse (env : Env) (args : commandline) (file essid bssid : GoString)
    (hp : parseFilename file = some (essid, bssid)) :
    specTargetResult env args file
      = (args.wordlists.find? (fun w =>
            decide (branchOf (outputOf env bssid essid (getKeyFilePath env args.input file)
              (getInputFile env args.input file) w) = Branch.keyFound))).bind (fun w =>
          (getKeyFromOutput (outputOf env bssid essid (getKeyFilePath env args.input file)
              (getInputFile env args.input file) w)).map (fun key =>
            ({ bssid := bssid, essid := essid, passphrase := key, wordlist := w } : result)))
    := by
  unfold specTargetResult
  rw [hp]
  simp only
  cases args.wordlists.find? _ <;> rfl

/-- The loop over the files appends, file by file, the result of each solved target. -/
theorem fileLoop_results (env : Env) (args : commandline) (files : List GoString)
    (st : RunState) (hparse : ∀ f ∈ files, parseFilename f ≠ none) :
    ∃ inv, fileLoop env args files st
      = some { results := st.results ++ files.filterMap (specTargetResult env args),
               invoked := inv } := by
  induction files generalizing st with
  | nil => exact ⟨st.invoked, by simp [fileLoop]⟩
  | cons f rest ih =>
    have hf := hparse f (List.mem_cons_self f rest)
    cases hp : parseFilename f with
    | none => exact absurd hp hf
    | some eb =>
      obtain ⟨essid, bssid⟩ := eb
      obtain ⟨inv1, h1⟩ := wordlistLoop_results env bssid essid
        (getKeyFilePath env args.input f) (getInputFile env args.input f) args.wordlists st
      obtain ⟨inv2, h2⟩ := ih
        { results := st.results ++ (specTargetResult env args f).toList, invoked := inv1 }
        (fun g hg => hparse g (List.mem_cons_of_mem f hg))
      refine ⟨inv2, ?_⟩
      rw [fileLoop]
      simp only [hp]
      rw [h1, ← specTargetResult_of_parse env args f essid bssid hp]
      simp only
      rw [h2]
      cases hs : specTargetResult env args f <;> simp [List.filterMap_cons, hs]

theorem findLongestESSIDFrom_isSome (files : List GoString) (longest : Nat)
    (hparse : ∀ f ∈ files, parseFilename f ≠ none) :
    ∃ n, findLongestESSIDFrom files longest = some n := by
  induction files generalizing longest with
  | nil => exact ⟨longest, rfl⟩
  | cons f rest ih =>
    have hf := hparse f (List.mem_cons_self f rest)
    cases hp : parseFilename f with
    | none => exact absurd hp hf
    | some eb =>
      obtain ⟨n, hn⟩ := ih (max longest eb.1.length)
        (fun g hg => hparse g (List.mem_cons_of_mem f hg))
      exact ⟨n, by rw [findLongestESSIDFrom]; simp only [hp]; exact hn⟩

end GoCrack

namespace GoCrack

/-- C9: when discovery returns `files`, every file name parses and every wordlist opens,
`main` reaches `report`, and the results passed to it are obtained from `files`, in discovery
order, by keeping one result for each target that has a wordlist whose output takes the
`keyFound` branch (with that target's essid and canonical bssid) and none for the others,
without reordering or deduplication. -/
theorem C9_results_in_discovery_order (env : Env) (args : commandline)
    (files : List GoString)
    (hfiles : getFiles env args.input = some files)
    (hparse : ∀ f ∈ files, parseFilename f ≠ none)
    (hwl : countPasswords env args.wordlists ≠ none) :
    (∃ st, main env args = some st ∧
      st.results = files.filterMap (specTargetResult env args)) ∧
    (∀ f ∈ files, ∀ essid bssid, parseFilename f = some (essid, bssid) →
      ((∃ r, specTargetResult env args f = some r) ↔
        ∃ w ∈ args.wordlists,
          branchOf (outputOf env bssid essid (getKeyFilePath env args.input f)
            (getInputFile env args.input f) w) = Branch.keyFound) ∧
      (∀ r, specTargetResult env args f = some r → r.essid = essid ∧ r.bssid = bssid)) := by
  constructor
  · obtain ⟨n, hn⟩ := findLongestESSIDFrom_isSome files 0 hparse
    obtain ⟨inv, hinv⟩ := fileLoop_results env args files
      { results := [], invoked := [] } hparse
    refine ⟨{ results := ([] : List result) ++ files.filterMap (specTargetResult env args),
              invoked := inv }, ?_, ?_⟩
    · unfold main
      rw [hfiles]
      simp only [findLongestESSID, hn]
      cases hc : countPasswords env args.wordlists with
      | none => exact absurd hc hwl
      | some m => exact hinv
    · simp
  · intro f _ essid bssid hp
    rw [specTargetResult_of_parse env args f essid bssid hp]
    constructor
    · constructor
      · rintro ⟨r, hr⟩
        cases hfind : args.wordlists.find? (fun w =>
            decide (branchOf (outputOf env bssid essid (getKeyFilePath env args.input f)
              (getInputFile env args.input f) w) = Branch.keyFound)) with
        | none => rw [hfind] at hr; simp at hr
        | some w =>
          have hmem := List.mem_of_find?_eq_some hfind
          have hsat := List.find?_some hfind
          exact ⟨w, hmem, by simpa using hsat⟩
      · rintro ⟨w, hw, hb⟩
        cases hfind : args.wordlists.find? (fun w =>
            decide (branchOf (outputOf env bssid essid (getKeyFilePath env args.input f)
              (getInputFile env args.input f) w) = Branch.keyFound)) with
        | none =>
          rw [List.find?_eq_none] at hfind
          exact absurd (by simpa using hb) (hfind w hw)
        | some v =>
          obtain ⟨key, hk⟩ := getKeyFromOutput_total
            (outputOf env bssid essid (getKeyFilePath env args.input f)
              (getInputFile env args.input f) v)
          exact ⟨{ bssid := bssid, essid := essid, passphrase := key, wordlist := v },
            by simp [hk]⟩
    · intro r hr
      cases hfind : args.wordlists.find? (fun w =>
          decide (branchOf (outputOf env bssid essid (getKeyFilePath env args.input f)
            (getInputFile env args.input f) w) = Branch.keyFound)) with
      | none => rw [hfind] at hr; simp at hr
      | some v =>
        rw [hfind] at hr
        simp only [Option.some_bind, Option.map_eq_some'] at hr
        obtain ⟨key, _, hkr⟩ := hr
        subst hkr
        exact ⟨rfl, rfl⟩

/-- C9, witness: two targets, `cafe` without a match on either wordlist and `home` solved by
its first wordlist; `main` reports exactly one result, that of `home`. -/
theorem C9_results_in_discovery_order_witness :
    ∃ st, main (testEnv [ascii "cafe_aabbccddeeff.pcap", ascii "home_0123456789ab.pcap"] []
          secondTargetEngine)
        { input := ascii "d", wordlists := [ascii "W1", ascii "W2"], verbose := false }
        = some st ∧
      st.results = [{ bssid := ascii "01:23:45:67:89:ab", essid := ascii "home",
                      passphrase := ascii "hunter2", wordlist := ascii "W1" }] := by
  obtain ⟨st, hst, hres⟩ := (C9_results_in_discovery_order
    (testEnv [ascii "cafe_aabbccddeeff.pcap", ascii "home_0123456789ab.pcap"] []
      secondTargetEngine)
    { input := ascii "d", wordlists := [ascii "W1", ascii "W2"], verbose := false }
    [ascii "cafe_aabbccddeeff.pcap", ascii "home_0123456789ab.pcap"]
    (by decide) (by decide) (by decide)).1
  refine ⟨st, hst, ?_⟩
  rw [hres]
  decide

end GoCrack

namespace GoCrack

/-! ## C7: canonical BSSID form -/

theorem isHex_ascii (c : Nat) (h : isHex c = true) : c < 128 ∧ c ≠ 58 := by
  unfold isHex at h
  simp only [Bool.or_eq_true, Bool.and_eq_true, decide_eq_true_eq] at h
  omega

/-- One step of the loop of `fmtBSSID` on an ASCII byte. -/
theorem fmtLoop_ascii (last : Int) (c : Nat) (t : GoString) (i : Nat) (hc : c < 128) :
    fmtLoop last (c :: t) i 0
      = c :: ((if i % 2 = 1 ∧ (i : Int) ≠ last then [58] else []) ++ fmtLoop last t (i + 1) 0)
    := by
  rw [fmtLoop]
  simp [decodeRune, encodeRune, hc]

/-- C7: for a string `b` of exactly 12 hex digits, `fmtBSSID b` is `b` with one colon after
each pair of characters except the last pair (before raw offsets 2, 4, 6, 8, 10): it has 17
characters, exactly 5 colons, at the positions 2, 5, 8, 11, 14 of the result, its hex digits
are those of `b` in order, and formatting its hex-only projection gives `fmtBSSID b` again. -/
theorem C7_fmtBSSID_canonical (b : GoString) (hlen : b.length = 12)
    (hhex : ∀ c ∈ b, isHex c = true) :
    fmtBSSID b = b.take 2 ++ 58 :: ((b.drop 2).take 2 ++ 58 :: ((b.drop 4).take 2 ++
      58 :: ((b.drop 6).take 2 ++ 58 :: ((b.drop 8).take 2 ++ 58 :: b.drop 10)))) ∧
    (fmtBSSID b).length = 17 ∧
    (fmtBSSID b).count 58 = 5 ∧
    (∀ k, k < 17 → ((fmtBSSID b).getD k 0 = 58 ↔ k % 3 = 2)) ∧
    (fmtBSSID b).filter isHex = b ∧
    fmtBSSID ((fmtBSSID b).filter isHex) = fmtBSSID b := by
  match b, hlen, hhex with
  | [b0, b1, b2, b3, b4, b5, b6, b7, b8, b9, b10, b11], _, hhex =>
    have h0 := hhex b0 (by simp)
    have h1 := hhex b1 (by simp)
    have h2 := hhex b2 (by simp)
    have h3 := hhex b3 (by simp)
    have h4 := hhex b4 (by simp)
    have h5 := hhex b5 (by simp)
    have h6 := hhex b6 (by simp)
    have h7 := hhex b7 (by simp)
    have h8 := hhex b8 (by simp)
    have h9 := hhex b9 (by simp)
    have h10 := hhex b10 (by simp)
    have h11 := hhex b11 (by simp)
    have a0 := isHex_ascii b0 h0
    have a1 := isHex_ascii b1 h1
    have a2 := isHex_ascii b2 h2
    have a3 := isHex_ascii b3 h3
    have a4 := isHex_ascii b4 h4
    have a5 := isHex_ascii b5 h5
    have a6 := isHex_ascii b6 h6
    have a7 := isHex_ascii b7 h7
    have a8 := isHex_ascii b8 h8
    have a9 := isHex_ascii b9 h9
    have a10 := isHex_ascii b10 h10
    have a11 := isHex_ascii b11 h11
    have hcolon : isHex 58 = false := by decide
    have hfmt : fmtBSSID [b0, b1, b2, b3, b4, b5, b6, b7, b8, b9, b10, b11]
        = [b0, b1, 58, b2, b3, 58, b4, b5, 58, b6, b7, 58, b8, b9, 58, b10, b11] := by
      unfold fmtBSSID
      rw [fmtLoop_ascii _ b0 _ _ a0.1, fmtLoop_ascii _ b1 _ _ a1.1,
        fmtLoop_ascii _ b2 _ _ a2.1, fmtLoop_ascii _ b3 _ _ a3.1,
        fmtLoop_ascii _ b4 _ _ a4.1, fmtLoop_ascii _ b5 _ _ a5.1,
        fmtLoop_ascii _ b6 _ _ a6.1, fmtLoop_ascii _ b7 _ _ a7.1,
        fmtLoop_ascii _ b8 _ _ a8.1, fmtLoop_ascii _ b9 _ _ a9.1,
        fmtLoop_ascii _ b10 _ _ a10.1, fmtLoop_ascii _ b11 _ _ a11.1]
      simp [fmtLoop]
    have hproj : ([b0, b1, 58, b2, b3, 58, b4, b5, 58, b6, b7, 58, b8, b9, 58, b10, b11]
        : GoString).filter isHex = [b0, b1, b2, b3, b4, b5, b6, b7, b8, b9, b10, b11] := by
      simp [List.filter, h0, h1, h2, h3, h4, h5, h6, h7, h8, h9, h10, h11, hcolon]
    refine ⟨?_, ?_, ?_, ?_, ?_, ?_⟩
    · rw [hfmt]; rfl
    · rw [hfmt]; rfl
    · rw [hfmt]
      simp [List.count_cons, a0.2, a1.2, a2.2, a3.2, a4.2, a5.2, a6.2, a7.2, a8.2, a9.2,
        a10.2, a11.2]
    · intro k hk
      rw [hfmt]
      interval_cases k <;>
        simp [List.getD, a0.2, a1.2, a2.2, a3.2, a4.2, a5.2, a6.2, a7.2, a8.2, a9.2,
          a10.2, a11.2]
    · rw [hfmt, hproj]
    · rw [hfmt, hproj, hfmt]

/-- C7, witness: the raw BSSID `0123456789ab`. -/
theorem C7_fmtBSSID_canonical_witness :
    fmtBSSID (ascii "0123456789ab")
      = (ascii "0123456789ab").take 2 ++ 58 :: (((ascii "0123456789ab").drop 2).take 2 ++
        58 :: (((ascii "0123456789ab").drop 4).take 2 ++
        58 :: (((ascii "0123456789ab").drop 6).take 2 ++
        58 :: (((ascii "0123456789ab").drop 8).take 2 ++
        58 :: (ascii "0123456789ab").drop 10)))) ∧
    fmtBSSID (ascii "0123456789ab") = ascii "01:23:45:67:89:ab" :=
  ⟨(C7_fmtBSSID_canonical (ascii "0123456789ab") (by decide) (by decide)).1, by decide⟩

end GoCrack

namespace GoCrack

/-! ## C4, C5, C6: names in which `.pcap` is not only the extension -/

/-- C4, the code at the failing input: the capture name `x.pcap_0123456789ab.pcap` is
`A_B.pcap` with `A = x.pcap` and `B = 0123456789ab`, neither with an underscore, and it
matches the capture pattern; `strings.Replace` removes the first `.pcap`, inside `A`, so
`parseFilename` returns the essid `x` and formats `0123456789ab.pcap` as the bssid. -/
theorem C4_parseFilename_removes_first_pcap :
    ascii "x.pcap_0123456789ab.pcap" = ascii "x.pcap" ++ ascii "_" ++ ascii "0123456789ab"
      ++ ascii ".pcap" ∧
    95 ∉ ascii "x.pcap" ∧ 95 ∉ ascii "0123456789ab" ∧
    reMatchString (ascii "x.pcap_0123456789ab.pcap") = true ∧
    Replace1 (ascii ".pcap") (ascii "") (ascii "x.pcap_0123456789ab.pcap")
      = ascii "x_0123456789ab.pcap" ∧
    parseFilename (ascii "x.pcap_0123456789ab.pcap")
      = some (ascii "x", ascii "01:23:45:67:89:ab:.p:ca:p") ∧
    parseFilename (ascii "x.pcap_0123456789ab.pcap")
      ≠ some (ascii "x.pcap", fmtBSSID (ascii "0123456789ab")) := by
  decide

/-- C5, the code at the failing input: the directory holds the capture
`x.pcap_0123456789ab.pcap` and its sentinel `x.pcap_0123456789ab.key`; the key file name that
`getFiles` builds is `x.key_0123456789ab.pcap`, which does not exist, so the capture is
returned although its sentinel exists. -/
theorem C5_getFiles_misses_sentinel :
    reMatchString (ascii "x.pcap_0123456789ab" ++ ascii ".pcap") = true ∧
    fileExists
      (testEnv [ascii "x.pcap_0123456789ab.key", ascii "x.pcap_0123456789ab.pcap"]
        [ascii "d/x.pcap_0123456789ab.key", ascii "d/x.pcap_0123456789ab.pcap"] hunterEngine)
      ((testEnv [ascii "x.pcap_0123456789ab.key", ascii "x.pcap_0123456789ab.pcap"]
        [ascii "d/x.pcap_0123456789ab.key", ascii "d/x.pcap_0123456789ab.pcap"]
        hunterEngine).join (ascii "d") (ascii "x.pcap_0123456789ab" ++ ascii ".key")) = true ∧
    Replace1 (ascii ".pcap") (ascii ".key") (ascii "x.pcap_0123456789ab.pcap")
      = ascii "x.key_0123456789ab.pcap" ∧
    getFiles
      (testEnv [ascii "x.pcap_0123456789ab.key", ascii "x.pcap_0123456789ab.pcap"]
        [ascii "d/x.pcap_0123456789ab.key", ascii "d/x.pcap_0123456789ab.pcap"] hunterEngine)
      (ascii "d") = some [ascii "x.pcap_0123456789ab.pcap"] := by
  decide

/-- C6, the code at the failing input: in a directory without any sentinel, the entry
`home_0123456789ab.pcap.bak` only contains the capture pattern, followed by `.bak`, and
`getFiles` returns it. -/
theorem C6_getFiles_pattern_unanchored :
    wholeNameMatch (ascii "home_0123456789ab.pcap.bak") = false ∧
    reMatchString (ascii "home_0123456789ab.pcap.bak") = true ∧
    getFiles (testEnv [ascii "home_0123456789ab.pcap.bak"] [ascii "d/home_0123456789ab.pcap.bak"]
      hunterEngine) (ascii "d") = some [ascii "home_0123456789ab.pcap.bak"] ∧
    parseFilename (ascii "home_0123456789ab.pcap.bak")
      = some (ascii "home", ascii "01:23:45:67:89:ab:.b:ak") := by
  decide

end GoCrack

namespace GoCrack

/-! ## The claims of C4 and C5 on names whose only `.pcap` is the extension -/

theorem indexFrom_neg_cons (sub : GoString) (c : Nat) (t : GoString) (i : Nat)
    (h : indexFrom sub (c :: t) i < 0) :
    sub.isPrefixOf (c :: t) = false ∧ indexFrom sub t (i + 1) < 0 := by
  unfold indexFrom at h
  by_cases hp : sub.isPrefixOf (c :: t) = true
  · rw [if_pos hp] at h; omega
  · rw [if_neg hp] at h
    exact ⟨Bool.eq_false_iff.mpr hp, h⟩

theorem indexFrom_neg_shift (sub : GoString) (s : GoString) (i j : Nat)
    (h : indexFrom sub s i < 0) : indexFrom sub s j < 0 := by
  induction s generalizing i j with
  | nil =>
    unfold indexFrom at h ⊢
    by_cases hp : sub.isPrefixOf [] = true
    · rw [if_pos hp] at h; omega
    · rw [if_neg hp]; omega
  | cons c t ih =>
    obtain ⟨h1, h2⟩ := indexFrom_neg_cons sub c t i h
    unfold indexFrom
    rw [h1]
    simpa using ih (i + 1) (j + 1) h2

/-- When `.pcap` does not occur in `x`, the occurrence replaced in `x ++ ".pcap"` is the
final one. -/
theorem Replace1_extension (x new : GoString)
    (h : Contains x (ascii ".pcap") = false) :
    Replace1 (ascii ".pcap") new (x ++ ascii ".pcap") = x ++ new := by
  have hp : ascii ".pcap" = [46, 112, 99, 97, 112] := by decide
  rw [hp] at h ⊢
  have h0 : indexFrom [46, 112, 99, 97, 112] x 0 < 0 := by
    unfold Contains Index at h
    simpa using h
  clear h
  induction x with
  | nil => simp [Replace1, List.isPrefixOf]
  | cons c t ih =>
    obtain ⟨h1, h2⟩ := indexFrom_neg_cons _ c t 0 h0
    have h3 := indexFrom_neg_shift _ t 1 0 h2
    have hnot : ([46, 112, 99, 97, 112] : GoString).isPrefixOf
        (c :: t ++ [46, 112, 99, 97, 112]) = false := by
      rcases t with _ | ⟨a, _ | ⟨b, _ | ⟨d, _ | ⟨e, t2⟩⟩⟩⟩ <;>
        first
          | (simp [List.isPrefixOf] at h1 ⊢; done)
          | (simp [List.isPrefixOf] at h1 ⊢; omega)
    rw [List.cons_append] at hnot
    rw [List.cons_append, Replace1, hnot]
    simp [ih h3]

theorem splitAux_no_sep (s cur : GoString) (h : 95 ∉ s) :
    splitAux [95] s 0 cur = [cur.reverse ++ s] := by
  induction s generalizing cur with
  | nil => simp [splitAux]
  | cons c t ih =>
    simp only [List.mem_cons, not_or] at h
    rw [splitAux, isPrefixOf_single_cons]
    simp [h.1, ih (c :: cur) h.2]

theorem splitAux_first_sep (a rest cur : GoString) (h : 95 ∉ a) :
    splitAux [95] (a ++ 95 :: rest) 0 cur
      = (cur.reverse ++ a) :: splitAux [95] rest 0 [] := by
  induction a generalizing cur with
  | nil => simp [splitAux, isPrefixOf_single_cons]
  | cons c t ih =>
    simp only [List.mem_cons, not_or] at h
    rw [List.cons_append, splitAux, isPrefixOf_single_cons]
    simp [h.1, ih (c :: cur) h.2]

/-- On a name `A_B.pcap` in which neither `A` nor `B` has an underscore and `A_B` has no
`.pcap`, `parseFilename` succeeds with the essid `A` and the bssid `fmtBSSID B`. -/
theorem parseFilename_clean (a b : GoString) (ha : 95 ∉ a) (hb : 95 ∉ b)
    (h : Contains (a ++ ascii "_" ++ b) (ascii ".pcap") = false) :
    parseFilename (a ++ ascii "_" ++ b ++ ascii ".pcap") = some (a, fmtBSSID b) := by
  have hu : ascii "_" = [95] := by decide
  have he : ascii "" = [] := by decide
  unfold parseFilename
  rw [Replace1_extension (a ++ ascii "_" ++ b) (ascii "") h, hu, he, List.append_nil]
  unfold Split
  rw [List.append_assoc, List.singleton_append, splitAux_first_sep a b [] ha,
    splitAux_no_sep b [] hb]
  simp

/-- A capture `S.pcap` whose stem `S` has no `.pcap` is not returned by `getFiles` when the
sentinel `S.key` exists. -/
theorem getFiles_excludes_sentinel_clean (env : Env) (path stem : GoString)
    (files : List GoString)
    (h : Contains stem (ascii ".pcap") = false)
    (hdir : env.readDir path = some files)
    (hkey : fileExists env (env.join path (stem ++ ascii ".key")) = true) :
    ∃ out, getFiles env path = some out ∧ stem ++ ascii ".pcap" ∉ out := by
  refine ⟨_, by unfold getFiles; rw [hdir], ?_⟩
  simp only [List.mem_filter, not_and]
  intro _
  rw [Replace1_extension stem (ascii ".key") h, hkey]
  simp

end GoCrack
